import Mathlib

/-
Verification of the `beancheck.py` aggregation pipeline of beancount.nvim.

The Python program is a single pass over a list of already-parsed ledger
entries; it accumulates an account registry, deduplicated string sets, a
flagged-entry list and an automatic-posting index, then reconciles a textual
balance report and prints four compact JSON documents.

The shallow embedding below translates that source directly:
Python dicts become insertion-ordered association lists, Python sets become
deduplicating lists, `Optional[str]` becomes `Option String`, `str(x)` on an
optional string becomes `pyStrOpt`, and the output of `json.dumps` with
separators `(",", ":")` is modelled by the `dumps` function on a JSON tree.
-/

set_option maxHeartbeats 1000000

/-! ## Small Python-semantics helpers -/

/-- Characters that Python's `str.strip()` removes (ASCII whitespace). -/
def pySpace (c : Char) : Bool :=
  c = ' ' || c = '\t' || c = '\n' || c = '\r' || c = '\x0b' || c = '\x0c'

/-- A string with no (Python) whitespace characters at all. -/
def wsFree (s : String) : Bool :=
  s.data.all (fun c => !(pySpace c))

/-- Python truthiness of an `Optional[str]`: `None` and `""` are falsy. -/
def pyTruthy (o : Option String) : Bool :=
  match o with
  | some s => s ≠ ""
  | none => false

/-- `str(x)` applied to a Python `Optional[str]`: `None` renders as `"None"`. -/
def pyStrOpt (o : Option String) : String :=
  match o with
  | some s => s
  | none => "None"

/-- Python's `s.startswith(pre)`. -/
def pyStartsWith (s : String) (pre : String) : Bool :=
  pre.data.isPrefixOf s.data

/-- Split a character list at the first space, like `str.partition(" ")`. -/
def partSp : List Char → Option (List Char × List Char)
  | [] => none
  | c :: cs =>
    if c = ' ' then some ([], cs)
    else (partSp cs).map (fun p => (c :: p.1, p.2))

/-- Python's `s.partition(" ")`: `(before, sep, after)`; `sep = ""` when no
space occurs in `s`. -/
def pyPartitionSpace (s : String) : String × String × String :=
  match partSp s.data with
  | some p => (⟨p.1⟩, " ", ⟨p.2⟩)
  | none => (s, "", "")

/-- Python's `s.strip()`: remove leading and trailing whitespace. -/
def pyStrip (s : String) : String :=
  ⟨((s.data.dropWhile pySpace).reverse.dropWhile pySpace).reverse⟩

/-- Add an element to a Python-set modelled as a duplicate-free list. -/
def setAdd (s : List String) (x : String) : List String :=
  if x ∈ s then s else s ++ [x]

/-- First-match lookup in an insertion-ordered association list. -/
def alistLookup {κ α : Type} [DecidableEq κ] (l : List (κ × α)) (k : κ) : Option α :=
  match l with
  | [] => none
  | p :: rest => if p.1 = k then some p.2 else alistLookup rest k

/-- Python-dict assignment `d[k] = v`: overwrite in place, append when new. -/
def alistSet {κ α : Type} [DecidableEq κ] (l : List (κ × α)) (k : κ) (v : α) :
    List (κ × α) :=
  match l with
  | [] => [(k, v)]
  | p :: rest => if p.1 = k then (k, v) :: rest else p :: alistSet rest k v

/-- Python set subtraction `s -= \x7b"", "None"\x7d`. -/
def cleanupSet (l : List String) : List String :=
  l.filter (fun x => decide (x ≠ "" ∧ x ≠ "None"))

/-- Decimal digit character (the digits emitted by `str(int)`). -/
def digCh (n : Nat) : Char :=
  if n = 0 then '0' else if n = 1 then '1' else if n = 2 then '2'
  else if n = 3 then '3' else if n = 4 then '4' else if n = 5 then '5'
  else if n = 6 then '6' else if n = 7 then '7' else if n = 8 then '8'
  else if n = 9 then '9' else '*'

/-- Decimal digit list of a natural number, most significant first. -/
def natChars (n : Nat) : List Char :=
  if n < 10 then [digCh n]
  else natChars (n / 10) ++ [digCh (n % 10)]
  decreasing_by
    exact Nat.div_lt_self (by omega) (by omega)

/-- Python's `str(int)` (also what `json.dumps` prints for an int). -/
def renderInt (n : Int) : String :=
  match n with
  | Int.ofNat m => ⟨natChars m⟩
  | Int.negSucc m => ⟨'-' :: natChars (m + 1)⟩

/-! ## Data model (translated from the beancount entry shapes the code reads) -/

/-- `posting.units`: an amount; `currency` is the `units.currency` attribute,
`to_string` is the textual rendering returned by `units.to_string()`. -/
structure AmountUnits where
  currency : String
  to_string : String
  deriving DecidableEq

/-- `posting.meta` with the defaults of `meta.get(...)` applied:
`automatic` is `meta.get("__automatic__", False)`, `filename` is
`meta.get("filename", "")`, `lineno` is `int(meta.get("lineno", 0))`. -/
structure PostingMeta where
  automatic : Bool
  filename : String
  lineno : Int
  deriving DecidableEq

/-- One posting of a transaction. `meta = none` models a missing or empty
(falsy) metadata dict; `flag = none` models `flag is None`. -/
structure Posting where
  account : String
  units : Option AmountUnits
  flag : Option String
  meta : Option PostingMeta
  deriving DecidableEq

/-- A `Transaction` entry; `narration`/`payee` are `Optional[str]` values. -/
structure Txn where
  flag : String
  payee : Option String
  narration : Option String
  tags : List String
  links : List String
  postings : List Posting
  filename : String
  lineno : Int
  deriving DecidableEq

/-- A ledger entry as the classifier sees it: `Transaction`, `Open`, `Close`
or any other variant (ignored by the pipeline and carrying no `flag`). -/
inductive Entry where
  | txn (t : Txn)
  | openE (account : String) (date : String) (currencies : Option (List String))
  | closeE (account : String) (date : String)
  | other
  deriving DecidableEq

/-- The per-account record stored in the `accounts` dict
(`\x7b"open": ..., "currencies": ..., "close": ..., "balance": ...\x7d`). -/
structure AccountRecord where
  openDate : String
  currencies : List String
  closeDate : String
  balance : List String
  deriving DecidableEq

/-- The duck-typed view `get_flag_metadata` takes of its argument: each
optional field is `none` when the attribute is absent or `None`. -/
structure FlagThing where
  className : String
  narration : Option String
  payee : Option String
  account : Option String
  filename : String
  lineno : Int
  flag : String
  deriving DecidableEq

/-- The dict returned by `get_flag_metadata`. -/
structure FlagRecord where
  file : String
  line : Int
  message : String
  flag : String
  deriving DecidableEq

/-- One loader error record (`e.source` + `e.message`). -/
structure LoaderError where
  filename : String
  lineno : Int
  message : String
  deriving DecidableEq

/-- The nested `automatics` mapping: file → line → amount strings. -/
abbrev Automatics := List (String × List (Int × List String))

/-- The mutable aggregation state of the single pass. -/
structure St where
  accounts : List (String × AccountRecord)
  automatics : Automatics
  commodities : List String
  flagged_entries : List FlagRecord
  payees : List String
  narrations : List String
  tags : List String
  links : List String
  deriving DecidableEq

/-- The empty initial state. -/
def initSt : St := ⟨[], [], [], [], [], [], [], []⟩

/-! ## The program (translated from `beancheck.py`) -/

/-- The `(name, value)` pairs of `beancount.core.flags.__dict__` that carry a
`FLAG_` name (external collaborator data, used for concrete instances). -/
def beancountFlagsDict : List (String × String) :=
  [("FLAG_OKAY", "*"), ("FLAG_WARNING", "!"), ("FLAG_PADDING", "P"),
   ("FLAG_SUMMARIZE", "S"), ("FLAG_TRANSFER", "T"), ("FLAG_CONVERSIONS", "C"),
   ("FLAG_UNREALIZED", "U"), ("FLAG_RETURNS", "R"), ("FLAG_MERGING", "M")]

/-- `get_reverse_flag_map`: value → name-without-`FLAG_`, built by a dict
comprehension (later pairs overwrite earlier ones). -/
def get_reverse_flag_map (d : List (String × String)) : List (String × String) :=
  d.foldl
    (fun m nv =>
      if pyStartsWith nv.1 "FLAG_" then alistSet m nv.2 (⟨nv.1.data.drop 5⟩ : String) else m)
    []

/-- `reverse_flag_map.get(flag, flag)`. -/
def resolveFlag (rm : List (String × String)) (fl : String) : String :=
  (alistLookup rm fl).getD fl

/-- The canonical reverse map built from the beancount flags module. -/
def beancountReverseFlagMap : List (String × String) :=
  get_reverse_flag_map beancountFlagsDict

/-- `get_flag_metadata`: derive the diagnostic record of a flagged object. -/
def get_flag_metadata (rm : List (String × String)) (t : FlagThing) : FlagRecord :=
  let help_text : String :=
    match t.narration with
    | some s => s
    | none =>
      match t.payee with
      | some s => s
      | none =>
        match t.account with
        | some s => s
        | none => "¯\\_(ツ)_/¯"
  { file := t.filename
    line := t.lineno
    message :=
      t.className ++ " has flag " ++ resolveFlag rm t.flag ++ " (" ++ help_text ++ ")"
    flag := t.flag }

/-- The duck-typed view of a `Transaction` (has narration and payee
attributes, no account attribute). -/
def txnThing (t : Txn) : FlagThing :=
  { className := "Transaction", narration := t.narration, payee := t.payee,
    account := none, filename := t.filename, lineno := t.lineno, flag := t.flag }

/-- The duck-typed view of a `Posting` (has an account attribute, no
narration or payee). -/
def postingThing (p : Posting) : FlagThing :=
  { className := "Posting", narration := none, payee := none,
    account := some p.account,
    filename := ((p.meta).map PostingMeta.filename).getD "",
    lineno := ((p.meta).map PostingMeta.lineno).getD 0,
    flag := pyStrOpt p.flag }

/-- `automatics[filename][lineno].append(amount_str)` with the lazy creation
of the nested dict entries. -/
def autoAdd (a : Automatics) (f : String) (l : Int) (s : String) : Automatics :=
  let inner := (alistLookup a f).getD []
  let lst := (alistLookup inner l).getD []
  alistSet a f (alistSet inner l (lst ++ [s]))

/-- The `txn_commodities` update of one posting (lines collecting
`units.currency` when present and non-empty). -/
def currStep (tc : List String) (p : Posting) : List String :=
  match p.units with
  | some u => if u.currency ≠ "" then setAdd tc u.currency else tc
  | none => tc

/-- The flagged-posting check of the posting loop. -/
def postingFlagStep (rm : List (String × String)) (s : St) (p : Posting) : St :=
  if pyStrOpt p.flag = "!" then
    { s with flagged_entries := s.flagged_entries ++ [get_flag_metadata rm (postingThing p)] }
  else s

/-- The automatic-posting indexing of the posting loop. -/
def postingAutoStep (s : St) (p : Posting) : St :=
  match p.meta with
  | some m =>
    if m.automatic then
      match p.units with
      | some u =>
        { s with automatics := autoAdd s.automatics m.filename m.lineno u.to_string }
      | none => s
    else s
  | none => s

/-- The posting loop of a transaction: threads the state and the local
`txn_commodities` set through the postings in order (currency collection,
flag check, then automatic indexing, exactly as in the source loop body). -/
def processPostings (rm : List (String × String)) :
    St → List String → List Posting → St × List String
  | s, tc, [] => (s, tc)
  | s, tc, p :: ps =>
    processPostings rm (postingAutoStep (postingFlagStep rm s p) p) (currStep tc p) ps

/-- The flagged-entry check run on every entry carrying a `flag` attribute. -/
def txnFlagStep (rm : List (String × String)) (s : St) (t : Txn) : St :=
  if t.flag = "!" then
    { s with flagged_entries := s.flagged_entries ++ [get_flag_metadata rm (txnThing t)] }
  else s

/-- The payee collection of a transaction (verbose mode only, truthy payee). -/
def txnPayeeStep (verbose : Bool) (s : St) (t : Txn) : St :=
  if verbose = true ∧ pyTruthy t.payee = true then
    { s with payees := setAdd s.payees ((t.payee).getD "") }
  else s

/-- The narration/tags/links collection of a transaction, skipped entirely
when the narration string starts with `"(Padding inserted"`. -/
def txnNarrationStep (verbose : Bool) (s : St) (t : Txn) : St :=
  let entry_narration := pyStrOpt t.narration
  if pyStartsWith entry_narration "(Padding inserted" then s
  else
    let s :=
      if verbose = true ∧ entry_narration ≠ "" then
        { s with narrations := setAdd s.narrations entry_narration }
      else s
    let s := { s with tags := t.tags.foldl setAdd s.tags }
    { s with links := t.links.foldl setAdd s.links }

/-- The posting loop followed by `commodities.update(txn_commodities)`. -/
def txnPostingsStep (rm : List (String × String)) (s : St) (t : Txn) : St :=
  let r := processPostings rm s [] t.postings
  { r.1 with commodities := r.2.foldl setAdd r.1.commodities }

/-- The body of the main entry loop, one entry at a time. -/
def processEntry (rm : List (String × String)) (verbose : Bool) (s : St)
    (e : Entry) : St :=
  match e with
  | Entry.txn t =>
    txnPostingsStep rm
      (txnNarrationStep verbose (txnPayeeStep verbose (txnFlagStep rm s t) t) t) t
  | Entry.openE a d cur =>
    if a ≠ "" then
      let r0 : AccountRecord :=
        { openDate := d, currencies := cur.getD [], closeDate := "", balance := [] }
      { s with accounts := alistSet s.accounts a r0 }
    else s
  | Entry.closeE a d =>
    if a ≠ "" then
      match alistLookup s.accounts a with
      | some r => { s with accounts := alistSet s.accounts a ({ r with closeDate := d }) }
      | none => s
    else s
  | Entry.other => s

/-- The main entry loop. -/
def runEntries (rm : List (String × String)) (verbose : Bool) (s : St)
    (es : List Entry) : St :=
  es.foldl (processEntry rm verbose) s

/-- One line of the balance report: split on the first space, take the first
space-delimited token of the stripped remainder, append it to the account's
balance list when the account exists. -/
def processBalanceLine (accounts : List (String × AccountRecord)) (line : String) :
    List (String × AccountRecord) :=
  if line ≠ "" then
    let parts := pyPartitionSpace line
    if parts.2.1 ≠ "" ∧ parts.2.2 ≠ "" then
      let bparts := pyPartitionSpace (pyStrip parts.2.2)
      if bparts.1 ≠ "" then
        match alistLookup accounts parts.1 with
        | some r =>
          alistSet accounts parts.1 ({ r with balance := r.balance ++ [bparts.1] })
        | none => accounts
      else accounts
    else accounts
  else accounts

/-- The balance-report loop. -/
def processBalanceLines (accounts : List (String × AccountRecord))
    (lines : List String) : List (String × AccountRecord) :=
  lines.foldl processBalanceLine accounts

/-- The whole aggregation pipeline: entry loop, balance reconciliation, and
the final `""`/`"None"` cleanup. -/
def runPipeline (rm : List (String × String)) (verbose : Bool)
    (es : List Entry) (balanceLines : List String) : St :=
  let st := runEntries rm verbose initSt es
  let st := { st with accounts := processBalanceLines st.accounts balanceLines }
  if verbose then
    { st with payees := cleanupSet st.payees, narrations := cleanupSet st.narrations }
  else
    { st with payees := cleanupSet st.payees }

/-! ## JSON documents and the compact serializer (`json.dumps` with
separators `(",", ":")`) -/

mutual

/-- A JSON value as produced by the program. -/
inductive Json where
  | str (s : String)
  | num (n : Int)
  | arr (xs : JsonArr)
  | obj (fs : JsonObj)

/-- The element list of a JSON array. -/
inductive JsonArr where
  | nil
  | cons (hd : Json) (tl : JsonArr)

/-- The field list of a JSON object. -/
inductive JsonObj where
  | nil
  | cons (k : String) (v : Json) (tl : JsonObj)

end

/-- Build a `JsonArr` from a list. -/
def JsonArr.ofList : List Json → JsonArr
  | [] => JsonArr.nil
  | j :: js => JsonArr.cons j (JsonArr.ofList js)

/-- Build a `JsonObj` from a list of fields. -/
def JsonObj.ofList : List (String × Json) → JsonObj
  | [] => JsonObj.nil
  | f :: fs => JsonObj.cons f.1 f.2 (JsonObj.ofList fs)

mutual

/-- `json.dumps(value, separators=(",", ":"))`. -/
def dumps : Json → String
  | Json.str s => "\"" ++ s ++ "\""
  | Json.num n => renderInt n
  | Json.arr xs => "[" ++ dumpsArr xs ++ "]"
  | Json.obj fs => "\x7b" ++ dumpsObj fs ++ "\x7d"

/-- Comma-joined array elements. -/
def dumpsArr : JsonArr → String
  | JsonArr.nil => ""
  | JsonArr.cons j JsonArr.nil => dumps j
  | JsonArr.cons j tl => dumps j ++ "," ++ dumpsArr tl

/-- Comma-joined `"key":value` fields. -/
def dumpsObj : JsonObj → String
  | JsonObj.nil => ""
  | JsonObj.cons k v JsonObj.nil => "\"" ++ k ++ "\":" ++ dumps v
  | JsonObj.cons k v tl => "\"" ++ k ++ "\":" ++ dumps v ++ "," ++ dumpsObj tl

end

mutual

/-- All the string atoms of a JSON value are whitespace-free. -/
def jsonOk : Json → Bool
  | Json.str s => wsFree s
  | Json.num _ => true
  | Json.arr xs => jsonOkArr xs
  | Json.obj fs => jsonOkObj fs

/-- `jsonOk` over the elements of an array. -/
def jsonOkArr : JsonArr → Bool
  | JsonArr.nil => true
  | JsonArr.cons j tl => jsonOk j && jsonOkArr tl

/-- `jsonOk` over the fields of an object. -/
def jsonOkObj : JsonObj → Bool
  | JsonObj.nil => true
  | JsonObj.cons k v tl => wsFree k && jsonOk v && jsonOkObj tl

end

/-- A JSON array of plain strings (`json.dumps` of a list of str). -/
def strArr (xs : List String) : Json :=
  Json.arr (JsonArr.ofList (xs.map Json.str))

/-- The JSON rendering of one account record, keys in creation order. -/
def accountJson (r : AccountRecord) : Json :=
  Json.obj (JsonObj.ofList
    [("open", Json.str r.openDate), ("currencies", strArr r.currencies),
     ("close", Json.str r.closeDate), ("balance", strArr r.balance)])

/-- Document 1: the error list. -/
def errorsJson (errs : List LoaderError) : Json :=
  Json.arr (JsonArr.ofList (errs.map (fun e =>
    Json.obj (JsonObj.ofList
      [("file", Json.str e.filename), ("line", Json.num e.lineno),
       ("message", Json.str e.message)]))))

/-- Document 2: the aggregate object. -/
def aggregateJson (st : St) : Json :=
  Json.obj (JsonObj.ofList
    [("accounts", Json.obj (JsonObj.ofList
        (st.accounts.map (fun kv => (kv.1, accountJson kv.2))))),
     ("commodities", strArr st.commodities),
     ("payees", strArr st.payees),
     ("narrations", strArr st.narrations),
     ("tags", strArr st.tags),
     ("links", strArr st.links)])

/-- The JSON rendering of one flag record. -/
def flagRecordJson (fr : FlagRecord) : Json :=
  Json.obj (JsonObj.ofList
    [("file", Json.str fr.file), ("line", Json.num fr.line),
     ("message", Json.str fr.message), ("flag", Json.str fr.flag)])

/-- Document 3: the flagged-entry array. -/
def flaggedJson (st : St) : Json :=
  Json.arr (JsonArr.ofList (st.flagged_entries.map flagRecordJson))

/-- Document 4: the automatic-posting mapping (`json.dumps` turns the int
line keys into strings). -/
def automaticsJson (a : Automatics) : Json :=
  Json.obj (JsonObj.ofList (a.map (fun kv =>
    (kv.1, Json.obj (JsonObj.ofList (kv.2.map (fun lv =>
      (renderInt lv.1, strArr lv.2))))))))

/-- The whole program: run the pipeline, then the four `print(json.dumps(...))`
calls, each producing one stdout line, in their source order. -/
def runProgram (rm : List (String × String)) (verbose : Bool)
    (errs : List LoaderError) (es : List Entry) (balanceLines : List String) :
    List String :=
  let st := runPipeline rm verbose es balanceLines
  [dumps (errorsJson errs), dumps (aggregateJson st),
   dumps (flaggedJson st), dumps (automaticsJson (st.automatics))]

/-! ## Spec-side definitions (worded from the claims, for comparison) -/

/-- The payee/account/placeholder tail of the C2 claim chain. -/
def specPayeeChainC2 (t : FlagThing) : String :=
  match t.payee with
  | some s => s
  | none =>
    match t.account with
    | some s => s
    | none => "¯\\_(ツ)_/¯"

/-- Modelled from the claim wording of C2: help text is the narration if
present and non-empty, otherwise the payee, otherwise the account, otherwise
the fixed placeholder. -/
def specHelpTextC2 (t : FlagThing) : String :=
  match t.narration with
  | some s => if s ≠ "" then s else specPayeeChainC2 t
  | none => specPayeeChainC2 t

/-- The help-text priority chain as implemented: narration if present and
not `None` (an empty string still counts), else payee, else account, else
the fixed placeholder. -/
def helpTextOf (t : FlagThing) : String :=
  match t.narration with
  | some s => s
  | none =>
    match t.payee with
    | some s => s
    | none =>
      match t.account with
      | some s => s
      | none => "¯\\_(ツ)_/¯"

/-- Modelled from the claim wording of C6: the first whitespace-delimited
token of the stripped remainder. -/
def specTokenC6 (remainder : String) : String :=
  ⟨(pyStrip remainder).data.takeWhile (fun c => !(pySpace c))⟩

/-- The amended C6 parsing rule, worded from the amended claim: split a
non-empty line on its first space; if the remainder is non-empty, the balance
token is the stripped remainder up to its first space; when that token is
non-empty and the account is a key of the registry, append the token to that
account's balance list; in every other case return the registry unchanged. -/
def amendedStepC6 (accounts : List (String × AccountRecord)) (line : String) :
    List (String × AccountRecord) :=
  if line = "" then accounts
  else
    match partSp line.data with
    | none => accounts
    | some p =>
      if (⟨p.2⟩ : String) = "" then accounts
      else
        let token : String := ⟨(pyStrip ⟨p.2⟩).data.takeWhile (fun c => !(c = ' '))⟩
        if token = "" then accounts
        else
          match alistLookup accounts (⟨p.1⟩ : String) with
          | some r =>
            alistSet accounts (⟨p.1⟩ : String) ({ r with balance := r.balance ++ [token] })
          | none => accounts

/-- Does this entry open the named account? -/
def isOpenFor (a : String) : Entry → Bool
  | Entry.openE a' _ _ => a' = a
  | _ => false

/-- Does this entry close the named account? -/
def isCloseFor (a : String) : Entry → Bool
  | Entry.closeE a' _ => a' = a
  | _ => false

/-- Loader-guaranteed shape of real ledger entries: `Open` and `Close` carry
a non-empty account name and `Close` a non-empty date string. -/
def wfEntry : Entry → Prop
  | Entry.openE a _ _ => a ≠ ""
  | Entry.closeE a d => a ≠ "" ∧ d ≠ ""
  | _ => True

/-- The postings an entry feeds to the posting loop. -/
def postingsOf : Entry → List Posting
  | Entry.txn t => t.postings
  | _ => []

/-- The automatic-posting indexing step of one posting, in isolation. -/
def autoStep (a : Automatics) (p : Posting) : Automatics :=
  match p.meta with
  | some m =>
    if m.automatic then
      match p.units with
      | some u => autoAdd a m.filename m.lineno u.to_string
      | none => a
    else a
  | none => a

/-- The automatic-posting indexing of a posting list. -/
def autoFold (a : Automatics) (ps : List Posting) : Automatics :=
  ps.foldl autoStep a

/-- The local `txn_commodities` accumulation over a posting list. -/
def currFold (tc : List String) (ps : List Posting) : List String :=
  ps.foldl currStep tc

/-- The rendered amount an automatic posting at `(f, l)` contributes, `none`
for every other posting. -/
def amountAt (f : String) (l : Int) (p : Posting) : Option String :=
  match p.meta with
  | some m =>
    if m.automatic then
      match p.units with
      | some u => if m.filename = f ∧ m.lineno = l then some u.to_string else none
      | none => none
    else none
  | none => none

/-- Lookup of the amount list at a `(file, line)` location, empty when the
nested keys are absent. -/
def autoLookup (a : Automatics) (f : String) (l : Int) : List String :=
  (alistLookup ((alistLookup a f).getD []) l).getD []

/-- Is there an automatic posting with units at file `f` in this list? -/
def hasAutoAt (f : String) (p : Posting) : Bool :=
  match p.meta with
  | some m =>
    if m.automatic then
      match p.units with
      | some _ => m.filename = f
      | none => false
    else false
  | none => false

/-! ## Helper lemmas -/

theorem alistLookup_set_self {κ α : Type} [DecidableEq κ]
    (l : List (κ × α)) (k : κ) (v : α) :
    alistLookup (alistSet l k v) k = some v := by
  induction l with
  | nil => simp [alistSet, alistLookup]
  | cons p rest ih =>
    by_cases h : p.1 = k
    · simp [alistSet, h, alistLookup]
    · simp [alistSet, h, alistLookup, ih]

theorem alistLookup_set_ne {κ α : Type} [DecidableEq κ]
    (l : List (κ × α)) (k k' : κ) (v : α) (h : k' ≠ k) :
    alistLookup (alistSet l k v) k' = alistLookup l k' := by
  induction l with
  | nil => simp [alistSet, alistLookup, Ne.symm h]
  | cons p rest ih =>
    by_cases hp : p.1 = k
    · subst hp
      simp [alistSet, alistLookup, Ne.symm h]
    · simp [alistSet, hp, alistLookup, ih]

theorem mem_setAdd (s : List String) (x y : String) :
    y ∈ setAdd s x ↔ y = x ∨ y ∈ s := by
  unfold setAdd
  split
  · constructor
    · intro h; exact Or.inr h
    · rintro (rfl | h) <;> assumption
  · simp [List.mem_append, or_comm]

theorem mem_foldl_setAdd (l : List String) :
    ∀ (s : List String) (y : String), y ∈ l.foldl setAdd s ↔ y ∈ s ∨ y ∈ l := by
  induction l with
  | nil => intro s y; simp
  | cons x xs ih =>
    intro s y
    simp only [List.foldl_cons, ih, mem_setAdd, List.mem_cons]
    tauto

theorem mem_cleanupSet (l : List String) (x : String) :
    x ∈ cleanupSet l ↔ x ∈ l ∧ x ≠ "" ∧ x ≠ "None" := by
  simp [cleanupSet]

theorem postingFlagStep_fields (rm : List (String × String)) (s : St) (p : Posting) :
    (postingFlagStep rm s p).accounts = s.accounts ∧
    (postingFlagStep rm s p).automatics = s.automatics ∧
    (postingFlagStep rm s p).commodities = s.commodities ∧
    (postingFlagStep rm s p).payees = s.payees ∧
    (postingFlagStep rm s p).narrations = s.narrations ∧
    (postingFlagStep rm s p).tags = s.tags ∧
    (postingFlagStep rm s p).links = s.links := by
  unfold postingFlagStep
  split <;> exact ⟨rfl, rfl, rfl, rfl, rfl, rfl, rfl⟩

theorem postingAutoStep_fields (s : St) (p : Posting) :
    (postingAutoStep s p).accounts = s.accounts ∧
    (postingAutoStep s p).automatics = autoStep s.automatics p ∧
    (postingAutoStep s p).commodities = s.commodities ∧
    (postingAutoStep s p).payees = s.payees ∧
    (postingAutoStep s p).narrations = s.narrations ∧
    (postingAutoStep s p).tags = s.tags ∧
    (postingAutoStep s p).links = s.links := by
  unfold postingAutoStep autoStep
  rcases p.meta with _ | m
  · exact ⟨rfl, rfl, rfl, rfl, rfl, rfl, rfl⟩
  · obtain ⟨auto, fn, ln⟩ := m
    rcases auto <;> rcases p.units with _ | u <;>
      exact ⟨rfl, rfl, rfl, rfl, rfl, rfl, rfl⟩

theorem processPostings_fields (rm : List (String × String)) :
    ∀ (ps : List Posting) (s : St) (tc : List String),
    ((processPostings rm s tc ps).1).accounts = s.accounts ∧
    ((processPostings rm s tc ps).1).automatics = autoFold s.automatics ps ∧
    ((processPostings rm s tc ps).1).commodities = s.commodities ∧
    ((processPostings rm s tc ps).1).payees = s.payees ∧
    ((processPostings rm s tc ps).1).narrations = s.narrations ∧
    ((processPostings rm s tc ps).1).tags = s.tags ∧
    ((processPostings rm s tc ps).1).links = s.links := by
  intro ps
  induction ps with
  | nil => intro s tc; exact ⟨rfl, rfl, rfl, rfl, rfl, rfl, rfl⟩
  | cons p ps ih =>
    intro s tc
    obtain ⟨f1, f2, f3, f4, f5, f6, f7⟩ := postingFlagStep_fields rm s p
    obtain ⟨a1, a2, a3, a4, a5, a6, a7⟩ :=
      postingAutoStep_fields (postingFlagStep rm s p) p
    obtain ⟨h1, h2, h3, h4, h5, h6, h7⟩ :=
      ih (postingAutoStep (postingFlagStep rm s p) p) (currStep tc p)
    refine ⟨?_, ?_, ?_, ?_, ?_, ?_, ?_⟩ <;>
      simp only [processPostings, h1, h2, h3, h4, h5, h6, h7,
        a1, a2, a3, a4, a5, a6, a7, f1, f2, f3, f4, f5, f6, f7,
        autoFold, List.foldl_cons]

theorem processPostings_snd (rm : List (String × String)) :
    ∀ (ps : List Posting) (s : St) (tc : List String),
    (processPostings rm s tc ps).2 = currFold tc ps := by
  intro ps
  induction ps with
  | nil => intro s tc; rfl
  | cons p ps ih =>
    intro s tc
    simp only [processPostings, ih, currFold, List.foldl_cons]

theorem txnFlagStep_fields (rm : List (String × String)) (s : St) (t : Txn) :
    (txnFlagStep rm s t).accounts = s.accounts ∧
    (txnFlagStep rm s t).automatics = s.automatics ∧
    (txnFlagStep rm s t).commodities = s.commodities ∧
    (txnFlagStep rm s t).payees = s.payees ∧
    (txnFlagStep rm s t).narrations = s.narrations ∧
    (txnFlagStep rm s t).tags = s.tags ∧
    (txnFlagStep rm s t).links = s.links := by
  unfold txnFlagStep
  split <;> exact ⟨rfl, rfl, rfl, rfl, rfl, rfl, rfl⟩

theorem txnPayeeStep_fields (verbose : Bool) (s : St) (t : Txn) :
    (txnPayeeStep verbose s t).accounts = s.accounts ∧
    (txnPayeeStep verbose s t).automatics = s.automatics ∧
    (txnPayeeStep verbose s t).commodities = s.commodities ∧
    (txnPayeeStep verbose s t).narrations = s.narrations ∧
    (txnPayeeStep verbose s t).tags = s.tags ∧
    (txnPayeeStep verbose s t).links = s.links := by
  unfold txnPayeeStep
  split <;> exact ⟨rfl, rfl, rfl, rfl, rfl, rfl⟩

theorem txnPayeeStep_payees_true (s : St) (t : Txn)
    (h : pyTruthy t.payee = true) :
    (txnPayeeStep true s t).payees = setAdd s.payees ((t.payee).getD "") := by
  unfold txnPayeeStep
  rw [if_pos ⟨rfl, h⟩]

theorem txnNarrationStep_fields (verbose : Bool) (s : St) (t : Txn) :
    (txnNarrationStep verbose s t).accounts = s.accounts ∧
    (txnNarrationStep verbose s t).automatics = s.automatics ∧
    (txnNarrationStep verbose s t).commodities = s.commodities ∧
    (txnNarrationStep verbose s t).payees = s.payees ∧
    (txnNarrationStep verbose s t).flagged_entries = s.flagged_entries := by
  simp only [txnNarrationStep]
  split
  · exact ⟨rfl, rfl, rfl, rfl, rfl⟩
  · split <;> exact ⟨rfl, rfl, rfl, rfl, rfl⟩

theorem txnNarrationStep_padding (verbose : Bool) (s : St) (t : Txn)
    (h : pyStartsWith (pyStrOpt t.narration) "(Padding inserted" = true) :
    txnNarrationStep verbose s t = s := by
  unfold txnNarrationStep
  simp only [h, if_true]

theorem txnNarrationStep_narrations_false (s : St) (t : Txn) :
    (txnNarrationStep false s t).narrations = s.narrations := by
  simp only [txnNarrationStep]
  split
  · rfl
  · simp

theorem txnPostingsStep_fields (rm : List (String × String)) (s : St) (t : Txn) :
    (txnPostingsStep rm s t).accounts = s.accounts ∧
    (txnPostingsStep rm s t).automatics = autoFold s.automatics t.postings ∧
    (txnPostingsStep rm s t).commodities =
      List.foldl setAdd s.commodities (currFold [] t.postings) ∧
    (txnPostingsStep rm s t).payees = s.payees ∧
    (txnPostingsStep rm s t).narrations = s.narrations ∧
    (txnPostingsStep rm s t).tags = s.tags ∧
    (txnPostingsStep rm s t).links = s.links := by
  obtain ⟨h1, h2, h3, h4, h5, h6, h7⟩ := processPostings_fields rm t.postings s []
  have hs := processPostings_snd rm t.postings s []
  simp only [txnPostingsStep]
  exact ⟨h1, h2, by rw [hs, h3], h4, h5, h6, h7⟩

/-- The accounts-registry effect of one entry, in isolation. -/
def accountsStep (acc : List (String × AccountRecord)) : Entry → List (String × AccountRecord)
  | Entry.openE a d cur =>
    if a ≠ "" then
      alistSet acc a { openDate := d, currencies := cur.getD [], closeDate := "", balance := [] }
    else acc
  | Entry.closeE a d =>
    if a ≠ "" then
      match alistLookup acc a with
      | some r => alistSet acc a { r with closeDate := d }
      | none => acc
    else acc
  | _ => acc

theorem processEntry_accounts (rm : List (String × String)) (verbose : Bool)
    (s : St) (e : Entry) :
    (processEntry rm verbose s e).accounts = accountsStep s.accounts e := by
  cases e with
  | txn t =>
    dsimp only [processEntry]
    rw [(txnPostingsStep_fields rm _ t).1, (txnNarrationStep_fields verbose _ t).1,
      (txnPayeeStep_fields verbose _ t).1, (txnFlagStep_fields rm s t).1]
    rfl
  | openE a d cur =>
    dsimp only [processEntry, accountsStep]
    split <;> rfl
  | closeE a d =>
    dsimp only [processEntry, accountsStep]
    split
    · cases alistLookup s.accounts a <;> rfl
    · rfl
  | other => rfl

theorem runEntries_accounts (rm : List (String × String)) (verbose : Bool) :
    ∀ (es : List Entry) (s : St),
    (runEntries rm verbose s es).accounts = es.foldl accountsStep s.accounts := by
  intro es
  induction es with
  | nil => intro s; rfl
  | cons e es ih =>
    intro s
    show (runEntries rm verbose (processEntry rm verbose s e) es).accounts = _
    rw [ih, List.foldl_cons, processEntry_accounts]

theorem processEntry_automatics (rm : List (String × String)) (verbose : Bool)
    (s : St) (e : Entry) :
    (processEntry rm verbose s e).automatics = autoFold s.automatics (postingsOf e) := by
  cases e with
  | txn t =>
    dsimp only [processEntry]
    rw [(txnPostingsStep_fields rm _ t).2.1, (txnNarrationStep_fields verbose _ t).2.1,
      (txnPayeeStep_fields verbose _ t).2.1, (txnFlagStep_fields rm s t).2.1]
    rfl
  | openE a d cur =>
    dsimp only [processEntry, postingsOf, autoFold]
    split <;> rfl
  | closeE a d =>
    dsimp only [processEntry, postingsOf, autoFold]
    split
    · cases alistLookup s.accounts a <;> rfl
    · rfl
  | other => rfl

theorem processEntry_narrations_false (rm : List (String × String)) (s : St)
    (e : Entry) :
    (processEntry rm false s e).narrations = s.narrations := by
  cases e with
  | txn t =>
    dsimp only [processEntry]
    rw [(txnPostingsStep_fields rm _ t).2.2.2.2.1, txnNarrationStep_narrations_false,
      (txnPayeeStep_fields false _ t).2.2.2.1, (txnFlagStep_fields rm s t).2.2.2.2.1]
  | openE a d cur =>
    dsimp only [processEntry]
    split <;> rfl
  | closeE a d =>
    dsimp only [processEntry]
    split
    · cases alistLookup s.accounts a <;> rfl
    · rfl
  | other => rfl

theorem runEntries_narrations_false (rm : List (String × String)) :
    ∀ (es : List Entry) (s : St),
    (runEntries rm false s es).narrations = s.narrations := by
  intro es
  induction es with
  | nil => intro s; rfl
  | cons e es ih =>
    intro s
    show (runEntries rm false (processEntry rm false s e) es).narrations = _
    rw [ih, processEntry_narrations_false]

theorem autoLookup_autoAdd_self (a : Automatics) (f : String) (l : Int) (s : String) :
    autoLookup (autoAdd a f l s) f l = autoLookup a f l ++ [s] := by
  simp [autoLookup, autoAdd, alistLookup_set_self]

theorem autoLookup_autoAdd_ne (a : Automatics) (f : String) (l : Int) (s : String)
    (f' : String) (l' : Int) (h : ¬(f' = f ∧ l' = l)) :
    autoLookup (autoAdd a f l s) f' l' = autoLookup a f' l' := by
  by_cases hf : f' = f
  · subst hf
    have hl : l' ≠ l := fun he => h ⟨rfl, he⟩
    simp [autoLookup, autoAdd, alistLookup_set_self, alistLookup_set_ne _ _ _ _ hl]
  · simp [autoLookup, autoAdd, alistLookup_set_ne _ _ _ _ hf]

theorem alistLookup_autoAdd_isSome (a : Automatics) (f : String) (l : Int)
    (s : String) (f' : String) :
    (alistLookup (autoAdd a f l s) f').isSome =
      ((alistLookup a f').isSome || decide (f' = f)) := by
  by_cases hf : f' = f
  · subst hf
    simp [autoAdd, alistLookup_set_self]
  · simp [autoAdd, alistLookup_set_ne _ _ _ _ hf, hf]

theorem autoLookup_autoStep (a : Automatics) (p : Posting) (f : String) (l : Int) :
    autoLookup (autoStep a p) f l = autoLookup a f l ++ (amountAt f l p).toList := by
  unfold autoStep amountAt
  rcases p.meta with _ | m
  · simp
  · obtain ⟨auto, fn, ln⟩ := m
    rcases auto
    · simp
    · rcases p.units with _ | u
      · simp
      · by_cases hfl : fn = f ∧ ln = l
        · obtain ⟨rfl, rfl⟩ := hfl
          simp [autoLookup_autoAdd_self]
        · have h2 : ¬(f = fn ∧ l = ln) := fun hh => hfl ⟨hh.1.symm, hh.2.symm⟩
          simp [hfl, autoLookup_autoAdd_ne _ _ _ _ _ _ h2]

theorem autoLookup_autoFold (ps : List Posting) :
    ∀ (a : Automatics) (f : String) (l : Int),
    autoLookup (autoFold a ps) f l = autoLookup a f l ++ ps.filterMap (amountAt f l) := by
  induction ps with
  | nil => intro a f l; simp [autoFold]
  | cons p ps ih =>
    intro a f l
    show autoLookup (autoFold (autoStep a p) ps) f l = _
    rw [ih, autoLookup_autoStep, List.filterMap_cons]
    cases amountAt f l p <;> simp

theorem alistLookup_autoStep_isSome (a : Automatics) (p : Posting) (f : String) :
    (alistLookup (autoStep a p) f).isSome = ((alistLookup a f).isSome || hasAutoAt f p) := by
  unfold autoStep hasAutoAt
  rcases p.meta with _ | m
  · simp
  · obtain ⟨auto, fn, ln⟩ := m
    rcases auto
    · simp
    · rcases p.units with _ | u
      · simp
      · simp [alistLookup_autoAdd_isSome, decide_eq_decide, eq_comm]

theorem alistLookup_autoFold_isSome (ps : List Posting) :
    ∀ (a : Automatics) (f : String),
    (alistLookup (autoFold a ps) f).isSome =
      ((alistLookup a f).isSome || ps.any (hasAutoAt f)) := by
  induction ps with
  | nil => intro a f; simp [autoFold]
  | cons p ps ih =>
    intro a f
    show (alistLookup (autoFold (autoStep a p) ps) f).isSome = _
    rw [ih, alistLookup_autoStep_isSome, List.any_cons]
    cases (alistLookup a f).isSome <;> simp [Bool.or_comm, Bool.or_assoc, Bool.or_left_comm]

theorem runEntries_automatics (rm : List (String × String)) (verbose : Bool) :
    ∀ (es : List Entry) (s : St),
    (runEntries rm verbose s es).automatics =
      autoFold s.automatics (es.map postingsOf).flatten := by
  intro es
  induction es with
  | nil => intro s; rfl
  | cons e es ih =>
    intro s
    show (runEntries rm verbose (processEntry rm verbose s e) es).automatics = _
    rw [ih, processEntry_automatics]
    simp only [List.map_cons, List.flatten_cons, autoFold, List.foldl_append]

theorem runPipeline_automatics (rm : List (String × String)) (verbose : Bool)
    (es : List Entry) (bl : List String) :
    (runPipeline rm verbose es bl).automatics =
      autoFold [] (es.map postingsOf).flatten := by
  unfold runPipeline
  split <;> exact runEntries_automatics rm verbose es initSt

theorem processBalanceLine_cases (acc : List (String × AccountRecord)) (line : String) :
    processBalanceLine acc line = acc ∨
    ∃ k r bp, alistLookup acc k = some r ∧
      processBalanceLine acc line = alistSet acc k ({ r with balance := r.balance ++ [bp] }) := by
  simp only [processBalanceLine]
  repeat' split
  all_goals try (left; rfl)
  rename_i r heq
  right
  exact ⟨_, r, _, heq, rfl⟩

theorem processBalanceLine_isSome (acc : List (String × AccountRecord))
    (line : String) (a : String) :
    (alistLookup (processBalanceLine acc line) a).isSome = (alistLookup acc a).isSome := by
  rcases processBalanceLine_cases acc line with h | ⟨k, r, bp, hk, h⟩
  · rw [h]
  · rw [h]
    by_cases hak : a = k
    · subst hak
      rw [alistLookup_set_self, hk]
      rfl
    · rw [alistLookup_set_ne _ _ _ _ hak]

theorem processBalanceLine_closeDate (acc : List (String × AccountRecord))
    (line : String) (a : String) :
    (alistLookup (processBalanceLine acc line) a).map AccountRecord.closeDate =
      (alistLookup acc a).map AccountRecord.closeDate := by
  rcases processBalanceLine_cases acc line with h | ⟨k, r, bp, hk, h⟩
  · rw [h]
  · rw [h]
    by_cases hak : a = k
    · subst hak
      rw [alistLookup_set_self, hk]
      rfl
    · rw [alistLookup_set_ne _ _ _ _ hak]

theorem processBalanceLines_isSome (bl : List String) :
    ∀ (acc : List (String × AccountRecord)) (a : String),
    (alistLookup (processBalanceLines acc bl) a).isSome = (alistLookup acc a).isSome := by
  induction bl with
  | nil => intro acc a; rfl
  | cons line bl ih =>
    intro acc a
    show (alistLookup (processBalanceLines (processBalanceLine acc line) bl) a).isSome = _
    rw [ih, processBalanceLine_isSome]

theorem processBalanceLines_closeDate (bl : List String) :
    ∀ (acc : List (String × AccountRecord)) (a : String),
    (alistLookup (processBalanceLines acc bl) a).map AccountRecord.closeDate =
      (alistLookup acc a).map AccountRecord.closeDate := by
  induction bl with
  | nil => intro acc a; rfl
  | cons line bl ih =>
    intro acc a
    show (alistLookup (processBalanceLines (processBalanceLine acc line) bl) a).map _ = _
    rw [ih, processBalanceLine_closeDate]

theorem foldl_accountsStep_isSome (es : List Entry) :
    ∀ (acc : List (String × AccountRecord)) (a : String), (∀ e ∈ es, wfEntry e) →
    ((alistLookup (es.foldl accountsStep acc) a).isSome = true ↔
      (alistLookup acc a).isSome = true ∨ ∃ e ∈ es, isOpenFor a e = true) := by
  induction es with
  | nil => intro acc a _; simp
  | cons e es ih =>
    intro acc a hwf
    rw [List.foldl_cons,
      ih _ a (fun e' he' => hwf e' (List.mem_cons_of_mem _ he'))]
    have hwe := hwf e (List.mem_cons_self e es)
    cases e with
    | txn t => simp [accountsStep, isOpenFor]
    | other => simp [accountsStep, isOpenFor]
    | openE a' d cur =>
      have ha' : a' ≠ "" := hwe
      by_cases haa : a' = a
      · subst haa
        simp [accountsStep, ha', alistLookup_set_self, isOpenFor]
      · have haa' : a ≠ a' := fun hh => haa hh.symm
        simp [accountsStep, ha', alistLookup_set_ne _ _ _ _ haa', isOpenFor, haa]
    | closeE a' d =>
      have ha' : a' ≠ "" := hwe.1
      rcases hlk : alistLookup acc a' with _ | r
      · simp [accountsStep, ha', hlk, isOpenFor]
      · by_cases haa : a' = a
        · subst haa
          simp [accountsStep, ha', hlk, alistLookup_set_self, isOpenFor]
        · have haa' : a ≠ a' := fun hh => haa hh.symm
          simp [accountsStep, ha', hlk, alistLookup_set_ne _ _ _ _ haa', isOpenFor, haa]

theorem foldl_accountsStep_closeDate (l₂ : List Entry) :
    ∀ (acc : List (String × AccountRecord)) (a : String) (r : AccountRecord),
    (∀ e ∈ l₂, wfEntry e) → (∀ e ∈ l₂, isOpenFor a e = false) →
    alistLookup acc a = some r →
    ∃ r', alistLookup (l₂.foldl accountsStep acc) a = some r' ∧
      (r'.closeDate = "" ↔ (r.closeDate = "" ∧ ∀ e ∈ l₂, isCloseFor a e = false)) := by
  induction l₂ with
  | nil =>
    intro acc a r _ _ hr
    exact ⟨r, hr, by simp⟩
  | cons e es ih =>
    intro acc a r hwf hop hr
    rw [List.foldl_cons]
    have hwe := hwf e (List.mem_cons_self e es)
    have hope := hop e (List.mem_cons_self e es)
    have hwf' := fun e' he' => hwf e' (List.mem_cons_of_mem _ he')
    have hop' := fun e' he' => hop e' (List.mem_cons_of_mem _ he')
    cases e with
    | txn t =>
      obtain ⟨r', h1, h2⟩ := ih acc a r hwf' hop' hr
      exact ⟨r', h1, by rw [h2]; simp [isCloseFor]⟩
    | other =>
      obtain ⟨r', h1, h2⟩ := ih acc a r hwf' hop' hr
      exact ⟨r', h1, by rw [h2]; simp [isCloseFor]⟩
    | openE a' d cur =>
      have haa : a' ≠ a := by
        intro hh
        rw [isOpenFor, hh] at hope
        simp at hope
      have haa' : a ≠ a' := fun hh => haa hh.symm
      have hstep : alistLookup (accountsStep acc (Entry.openE a' d cur)) a = some r := by
        simp only [accountsStep]
        split
        · rw [alistLookup_set_ne _ _ _ _ haa']
          exact hr
        · exact hr
      obtain ⟨r', h1, h2⟩ := ih _ a r hwf' hop' hstep
      exact ⟨r', h1, by rw [h2]; simp [isCloseFor, haa]⟩
    | closeE a' d =>
      have ha' : a' ≠ "" := hwe.1
      have hd : d ≠ "" := hwe.2
      by_cases haa : a' = a
      · subst haa
        have hstep : alistLookup (accountsStep acc (Entry.closeE a' d)) a' =
            some ({ r with closeDate := d }) := by
          simp only [accountsStep, hr]
          rw [if_pos ha', alistLookup_set_self]
        obtain ⟨r', h1, h2⟩ := ih _ a' ({ r with closeDate := d }) hwf' hop' hstep
        refine ⟨r', h1, ?_⟩
        rw [h2]
        simp [isCloseFor, hd]
      · have haa' : a ≠ a' := fun hh => haa hh.symm
        have hstep : alistLookup (accountsStep acc (Entry.closeE a' d)) a = some r := by
          simp only [accountsStep]
          rw [if_pos ha']
          rcases hlk : alistLookup acc a' with _ | r2 <;> simp only [hlk]
          · exact hr
          · rw [alistLookup_set_ne _ _ _ _ haa']
            exact hr
        obtain ⟨r', h1, h2⟩ := ih _ a r hwf' hop' hstep
        exact ⟨r', h1, by rw [h2]; simp [isCloseFor, haa]⟩

theorem pySpace_digCh (n : Nat) : pySpace (digCh n) = false := by
  unfold digCh
  repeat' split
  all_goals decide

theorem natChars_wsFree (n : Nat) : ∀ c ∈ natChars n, pySpace c = false := by
  induction n using Nat.strong_induction_on with
  | _ n ih =>
    intro c hc
    rw [natChars] at hc
    split at hc
    · simp only [List.mem_singleton] at hc
      subst hc
      exact pySpace_digCh _
    · rename_i hge
      rcases List.mem_append.1 hc with h1 | h2
      · exact ih (n / 10) (Nat.div_lt_self (by omega) (by omega)) c h1
      · simp only [List.mem_singleton] at h2
        subst h2
        exact pySpace_digCh _

theorem wsFree_renderInt (n : Int) : wsFree (renderInt n) = true := by
  cases n with
  | ofNat m =>
    show (natChars m).all (fun c => !(pySpace c)) = true
    rw [List.all_eq_true]
    intro c hc
    rw [natChars_wsFree m c hc]
    rfl
  | negSucc m =>
    show ('-' :: natChars (m + 1)).all (fun c => !(pySpace c)) = true
    rw [List.all_eq_true]
    intro c hc
    rcases List.mem_cons.1 hc with rfl | hmem
    · rfl
    · rw [natChars_wsFree (m + 1) c hmem]
      rfl

theorem wsFree_append (a b : String) : wsFree (a ++ b) = (wsFree a && wsFree b) := by
  rcases a with ⟨d1⟩
  rcases b with ⟨d2⟩
  show (d1 ++ d2).all _ = ((d1.all _) && (d2.all _))
  exact List.all_append

mutual

theorem wsFree_dumps : ∀ (j : Json), jsonOk j = true → wsFree (dumps j) = true
  | Json.str s, h => by
    have hq : wsFree "\"" = true := by decide
    show wsFree ("\"" ++ s ++ "\"") = true
    rw [wsFree_append, wsFree_append, hq]
    have hs : wsFree s = true := h
    rw [hs]
    rfl
  | Json.num n, _ => wsFree_renderInt n
  | Json.arr xs, h => by
    have h1 : wsFree "[" = true := by decide
    have h2 : wsFree "]" = true := by decide
    show wsFree ("[" ++ dumpsArr xs ++ "]") = true
    rw [wsFree_append, wsFree_append, h1, h2, wsFree_dumpsArr xs h]
    rfl
  | Json.obj fs, h => by
    have h1 : wsFree "\x7b" = true := by decide
    have h2 : wsFree "\x7d" = true := by decide
    show wsFree ("\x7b" ++ dumpsObj fs ++ "\x7d") = true
    rw [wsFree_append, wsFree_append, h1, h2, wsFree_dumpsObj fs h]
    rfl

theorem wsFree_dumpsArr : ∀ (xs : JsonArr), jsonOkArr xs = true → wsFree (dumpsArr xs) = true
  | JsonArr.nil, _ => by decide
  | JsonArr.cons j JsonArr.nil, h => by
    have hj : jsonOk j = true := by
      have := h
      rw [jsonOkArr, Bool.and_eq_true] at this
      exact this.1
    exact wsFree_dumps j hj
  | JsonArr.cons j (JsonArr.cons j2 tl), h => by
    have hsplit : jsonOk j = true ∧ jsonOkArr (JsonArr.cons j2 tl) = true := by
      have := h
      rw [jsonOkArr, Bool.and_eq_true] at this
      exact this
    have hc : wsFree "," = true := by decide
    show wsFree (dumps j ++ "," ++ dumpsArr (JsonArr.cons j2 tl)) = true
    rw [wsFree_append, wsFree_append, hc, wsFree_dumps j hsplit.1,
      wsFree_dumpsArr (JsonArr.cons j2 tl) hsplit.2]
    rfl

theorem wsFree_dumpsObj : ∀ (fs : JsonObj), jsonOkObj fs = true → wsFree (dumpsObj fs) = true
  | JsonObj.nil, _ => by decide
  | JsonObj.cons k v JsonObj.nil, h => by
    have hsplit : (wsFree k && jsonOk v) = true ∧ jsonOkObj JsonObj.nil = true := by
      have := h
      rw [jsonOkObj, Bool.and_eq_true] at this
      exact this
    have hkv := hsplit.1
    rw [Bool.and_eq_true] at hkv
    obtain ⟨hk, hv⟩ := hkv
    have hq : wsFree "\"" = true := by decide
    have hcolon : wsFree "\":" = true := by decide
    show wsFree ("\"" ++ k ++ "\":" ++ dumps v) = true
    rw [wsFree_append, wsFree_append, wsFree_append, hq, hcolon, hk, wsFree_dumps v hv]
    rfl
  | JsonObj.cons k v (JsonObj.cons k2 v2 tl), h => by
    have hsplit : (wsFree k && jsonOk v) = true ∧ jsonOkObj (JsonObj.cons k2 v2 tl) = true := by
      have := h
      rw [jsonOkObj, Bool.and_eq_true] at this
      exact this
    have hkv := hsplit.1
    rw [Bool.and_eq_true] at hkv
    obtain ⟨hk, hv⟩ := hkv
    have hq : wsFree "\"" = true := by decide
    have hcolon : wsFree "\":" = true := by decide
    have hcomma : wsFree "," = true := by decide
    show wsFree ("\"" ++ k ++ "\":" ++ dumps v ++ "," ++ dumpsObj (JsonObj.cons k2 v2 tl)) = true
    rw [wsFree_append, wsFree_append, wsFree_append, wsFree_append, wsFree_append,
      hq, hcolon, hcomma, hk, wsFree_dumps v hv,
      wsFree_dumpsObj (JsonObj.cons k2 v2 tl) hsplit.2]
    rfl

end

theorem partSp_fst (l : List Char) :
    (match partSp l with
     | some p => p.1
     | none => l) = l.takeWhile (fun c => !(c = ' ')) := by
  induction l with
  | nil => rfl
  | cons c cs ih =>
    by_cases hc : c = ' '
    · subst hc
      simp [partSp, List.takeWhile_cons]
    · cases hp : partSp cs with
      | none =>
        simp only [hp] at ih
        simp only [partSp, hp, List.takeWhile_cons]
        simp [hc]
        exact ih
      | some p =>
        simp only [hp] at ih
        simp only [partSp, hp, List.takeWhile_cons]
        simp [hc]
        exact ih

theorem pyPartitionSpace_fst (s : String) :
    (pyPartitionSpace s).1 = (⟨s.data.takeWhile (fun c => !(c = ' '))⟩ : String) := by
  have hfst := partSp_fst s.data
  unfold pyPartitionSpace
  cases hp : partSp s.data with
  | none =>
    rw [hp] at hfst
    rcases s with ⟨d⟩
    simp only at hfst ⊢
    exact congrArg String.mk hfst
  | some p =>
    rw [hp] at hfst
    simp only
    exact congrArg String.mk hfst

theorem runPipeline_accounts (rm : List (String × String)) (verbose : Bool)
    (es : List Entry) (bl : List String) :
    (runPipeline rm verbose es bl).accounts =
      processBalanceLines (es.foldl accountsStep []) bl := by
  unfold runPipeline
  split <;>
    (show processBalanceLines (runEntries rm verbose initSt es).accounts bl = _
     rw [runEntries_accounts]
     rfl)

theorem runPipeline_payees (rm : List (String × String)) (verbose : Bool)
    (es : List Entry) (bl : List String) :
    (runPipeline rm verbose es bl).payees =
      cleanupSet (runEntries rm verbose initSt es).payees := by
  unfold runPipeline
  split <;> rfl

theorem runPipeline_narrations_true (rm : List (String × String))
    (es : List Entry) (bl : List String) :
    (runPipeline rm true es bl).narrations =
      cleanupSet (runEntries rm true initSt es).narrations := by
  unfold runPipeline
  rfl

theorem runPipeline_narrations_false (rm : List (String × String))
    (es : List Entry) (bl : List String) :
    (runPipeline rm false es bl).narrations =
      (runEntries rm false initSt es).narrations := by
  unfold runPipeline
  rfl

/-! ## Claim theorems -/

/-- C5: for every entry list, balance report and verbosity setting, the
`payees` and `narrations` sets of the emitted aggregate never contain the
literal string `""` nor the literal string `"None"`. -/
theorem c5_no_empty_or_none (rm : List (String × String)) (verbose : Bool)
    (es : List Entry) (bl : List String) :
    "" ∉ (runPipeline rm verbose es bl).payees ∧
    "None" ∉ (runPipeline rm verbose es bl).payees ∧
    "" ∉ (runPipeline rm verbose es bl).narrations ∧
    "None" ∉ (runPipeline rm verbose es bl).narrations := by
  refine ⟨?_, ?_, ?_, ?_⟩
  · rw [runPipeline_payees]
    intro h
    exact ((mem_cleanupSet _ _).1 h).2.1 rfl
  · rw [runPipeline_payees]
    intro h
    exact ((mem_cleanupSet _ _).1 h).2.2 rfl
  · cases verbose
    · rw [runPipeline_narrations_false, runEntries_narrations_false]
      exact List.not_mem_nil _
    · rw [runPipeline_narrations_true]
      intro h
      exact ((mem_cleanupSet _ _).1 h).2.1 rfl
  · cases verbose
    · rw [runPipeline_narrations_false, runEntries_narrations_false]
      exact List.not_mem_nil _
    · rw [runPipeline_narrations_true]
      intro h
      exact ((mem_cleanupSet _ _).1 h).2.2 rfl

/-- C4: the final automatic-posting index maps each `(file, line)` location
to exactly the rendered amount strings of the automatic postings with units
at that location, in posting-encounter order and without deduplication, and
a file key exists iff some automatic posting with units has that filename
(nested keys are created only on first use). -/
theorem c4_automatic_index (rm : List (String × String)) (verbose : Bool)
    (es : List Entry) (bl : List String) (f : String) (l : Int) :
    autoLookup (runPipeline rm verbose es bl).automatics f l =
      ((es.map postingsOf).flatten).filterMap (amountAt f l) ∧
    ((alistLookup (runPipeline rm verbose es bl).automatics f).isSome = true ↔
      ∃ p ∈ (es.map postingsOf).flatten, hasAutoAt f p = true) := by
  rw [runPipeline_automatics]
  constructor
  · rw [autoLookup_autoFold]
    simp [autoLookup, alistLookup]
  · rw [alistLookup_autoFold_isSome]
    simp [alistLookup, List.any_eq_true]
    constructor
    · rintro ⟨e, he, p, hp, hauto⟩
      exact ⟨p, ⟨e, he, hp⟩, hauto⟩
    · rintro ⟨p, ⟨e, he, hp⟩, hauto⟩
      exact ⟨e, he, p, hp, hauto⟩

/-- C8: the amount string appended for an automatic posting is exactly the
textual rendering `units.to_string` supplied for its units, with no rounding
or conversion. -/
theorem c8_amount_verbatim (rm : List (String × String)) (s : St)
    (tc : List String) (p : Posting) (m : PostingMeta) (u : AmountUnits)
    (hm : p.meta = some m) (ha : m.automatic = true) (hu : p.units = some u) :
    autoLookup ((processPostings rm s tc [p]).1).automatics m.filename m.lineno =
      autoLookup s.automatics m.filename m.lineno ++ [u.to_string] := by
  rw [(processPostings_fields rm [p] s tc).2.1]
  show autoLookup (autoFold s.automatics [p]) _ _ = _
  rw [autoLookup_autoFold]
  simp [amountAt, hm, ha, hu]

/-- A concrete automatic posting whose amount has three decimal places. -/
def postingC8 : Posting :=
  { account := "Assets:Brokerage", units := some ⟨"USD", "100.438 USD"⟩,
    flag := none, meta := some ⟨true, "main.bean", 42⟩ }

/-- C8 witness: the amount `100.438 USD` is recorded verbatim, not rounded. -/
theorem c8_witness :
    autoLookup ((processPostings [] initSt [] [postingC8]).1).automatics "main.bean" 42 =
      ["100.438 USD"] := by
  simpa using
    c8_amount_verbatim [] initSt [] postingC8 ⟨true, "main.bean", 42⟩
      ⟨"USD", "100.438 USD"⟩ rfl rfl rfl

/-- A flagged transaction with an empty (but present) narration and a payee. -/
def thingC2 : FlagThing :=
  { className := "Transaction", narration := some "", payee := some "Bob",
    account := none, filename := "m.bean", lineno := 3, flag := "!" }

/-- C2 counterexample: the code checks `is not None`, not non-emptiness, so
an empty-string narration is used as the help text and the payee is never
consulted; the claim's chain would have produced `"Bob"`. -/
theorem c2_counterexample :
    (get_flag_metadata beancountReverseFlagMap thingC2).message =
      "Transaction has flag WARNING ()" ∧
    specHelpTextC2 thingC2 = "Bob" ∧
    (get_flag_metadata beancountReverseFlagMap thingC2).message ≠
      "Transaction has flag WARNING (" ++ specHelpTextC2 thingC2 ++ ")" := by
  refine ⟨by decide, by decide, by decide⟩

/-- C2 (amended): the help text embedded in the message follows the
priority chain narration-if-present-and-not-None (an empty string still
wins), otherwise payee, otherwise account, otherwise the fixed placeholder. -/
theorem c2_amended_help_chain (rm : List (String × String)) (t : FlagThing) :
    (∀ s, t.narration = some s →
      (get_flag_metadata rm t).message =
        t.className ++ " has flag " ++ resolveFlag rm t.flag ++ " (" ++ s ++ ")") ∧
    (t.narration = none → ∀ s, t.payee = some s →
      (get_flag_metadata rm t).message =
        t.className ++ " has flag " ++ resolveFlag rm t.flag ++ " (" ++ s ++ ")") ∧
    (t.narration = none → t.payee = none → ∀ s, t.account = some s →
      (get_flag_metadata rm t).message =
        t.className ++ " has flag " ++ resolveFlag rm t.flag ++ " (" ++ s ++ ")") ∧
    (t.narration = none → t.payee = none → t.account = none →
      (get_flag_metadata rm t).message =
        t.className ++ " has flag " ++ resolveFlag rm t.flag ++ " (" ++ "¯\\_(ツ)_/¯" ++ ")") := by
  refine ⟨?_, ?_, ?_, ?_⟩
  · intro s hs
    unfold get_flag_metadata
    rw [hs]
  · intro hn s hs
    unfold get_flag_metadata
    rw [hn, hs]
  · intro hn hp s hs
    unfold get_flag_metadata
    rw [hn, hp, hs]
  · intro hn hp ha
    unfold get_flag_metadata
    rw [hn, hp, ha]

/-- C2 witness: on `thingC2` the chain stops at the empty narration. -/
theorem c2_witness :
    (get_flag_metadata beancountReverseFlagMap thingC2).message =
      "Transaction" ++ " has flag " ++ resolveFlag beancountReverseFlagMap "!" ++ " (" ++ "" ++ ")" :=
  (c2_amended_help_chain beancountReverseFlagMap thingC2).1 "" rfl

/-- C9: the message of every flag record is
`"<VariantName> has flag <ResolvedFlagName> (<help text>)"`, and a flag code
with no entry in the reverse taxonomy map resolves to itself unchanged. -/
theorem c9_message_format (rm : List (String × String)) (t : FlagThing) :
    ((get_flag_metadata rm t).message =
      t.className ++ " has flag " ++ resolveFlag rm t.flag ++ " (" ++ helpTextOf t ++ ")") ∧
    (∀ fl, alistLookup rm fl = none → resolveFlag rm fl = fl) := by
  constructor
  · unfold get_flag_metadata helpTextOf
    cases t.narration <;> cases t.payee <;> cases t.account <;> rfl
  · intro fl hfl
    unfold resolveFlag
    rw [hfl]
    rfl

/-- A flagged transaction carrying a flag code outside the taxonomy. -/
def thingC9 : FlagThing :=
  { className := "Transaction", narration := some "hello", payee := none,
    account := none, filename := "m.bean", lineno := 5, flag := "Z" }

/-- C9 witness: the unknown flag code `"Z"` resolves to itself and the
message is rendered in the fixed format. -/
theorem c9_witness :
    resolveFlag beancountReverseFlagMap "Z" = "Z" ∧
    (get_flag_metadata beancountReverseFlagMap thingC9).message =
      "Transaction" ++ " has flag " ++ resolveFlag beancountReverseFlagMap "Z" ++
        " (" ++ helpTextOf thingC9 ++ ")" :=
  ⟨(c9_message_format beancountReverseFlagMap thingC9).2 "Z" (by decide),
   (c9_message_format beancountReverseFlagMap thingC9).1⟩

/-- C10: with verbose mode enabled, the payee of a transaction whose
narration starts with `"(Padding inserted"` is still added to the payee set:
the padding exclusion never applies to payee collection. -/
theorem c10_padding_payee (rm : List (String × String)) (s : St) (t : Txn)
    (pay : String) (hpay : t.payee = some pay) (hne : pay ≠ "")
    (_hpad : pyStartsWith (pyStrOpt t.narration) "(Padding inserted" = true) :
    pay ∈ (processEntry rm true s (Entry.txn t)).payees := by
  dsimp only [processEntry]
  rw [(txnPostingsStep_fields rm _ t).2.2.2.1,
    (txnNarrationStep_fields true _ t).2.2.2.1,
    txnPayeeStep_payees_true _ t (by simp [pyTruthy, hpay, hne]), hpay]
  exact (mem_setAdd _ _ _).2 (Or.inl rfl)

/-- A padding transaction with a payee, a tag, a link and one automatic
posting. -/
def txnPad : Txn :=
  { flag := "P", payee := some "PayCo", narration := some "(Padding inserted for balance)",
    tags := ["t1"], links := ["l1"], postings := [postingC8],
    filename := "m.bean", lineno := 9 }

/-- C10 witness: the padding transaction's payee is collected. -/
theorem c10_witness :
    "PayCo" ∈ (processEntry [] true initSt (Entry.txn txnPad)).payees :=
  c10_padding_payee [] initSt txnPad "PayCo" rfl (by decide) (by decide)

/-- C3: a transaction whose narration string starts with
`"(Padding inserted"` contributes nothing to the tags, links or narrations
sets, while its postings are still processed for automatic-posting indexing
and commodity collection. -/
theorem c3_padding_exclusion (rm : List (String × String)) (verbose : Bool)
    (s : St) (t : Txn)
    (hpad : pyStartsWith (pyStrOpt t.narration) "(Padding inserted" = true) :
    (processEntry rm verbose s (Entry.txn t)).tags = s.tags ∧
    (processEntry rm verbose s (Entry.txn t)).links = s.links ∧
    (processEntry rm verbose s (Entry.txn t)).narrations = s.narrations ∧
    (processEntry rm verbose s (Entry.txn t)).automatics = autoFold s.automatics t.postings ∧
    (processEntry rm verbose s (Entry.txn t)).commodities =
      List.foldl setAdd s.commodities (currFold [] t.postings) := by
  dsimp only [processEntry]
  rw [txnNarrationStep_padding verbose _ t hpad]
  obtain ⟨p1, p2, p3, p4, p5, p6, p7⟩ :=
    txnPostingsStep_fields rm (txnPayeeStep verbose (txnFlagStep rm s t) t) t
  obtain ⟨q1, q2, q3, q5, q6, q7⟩ := txnPayeeStep_fields verbose (txnFlagStep rm s t) t
  obtain ⟨f1, f2, f3, f4, f5, f6, f7⟩ := txnFlagStep_fields rm s t
  exact ⟨by rw [p6, q6, f6], by rw [p7, q7, f7], by rw [p5, q5, f5],
    by rw [p2, q2, f2], by rw [p3, q3, f3]⟩

/-- C3 witness: the concrete padding transaction adds no tag, link or
narration but its automatic posting is indexed and its commodity collected. -/
theorem c3_witness :
    (processEntry [] true initSt (Entry.txn txnPad)).tags = initSt.tags ∧
    (processEntry [] true initSt (Entry.txn txnPad)).automatics =
      autoFold initSt.automatics txnPad.postings :=
  ⟨(c3_padding_exclusion [] true initSt txnPad (by decide)).1,
   (c3_padding_exclusion [] true initSt txnPad (by decide)).2.2.2.1⟩

/-- C7: every run prints exactly four lines, in the fixed order error list /
aggregate object / flagged-entry array / automatic-posting mapping, each the
compact serialization of its document; and the compact serializer emits no
whitespace beyond what the documents' own string atoms contain. -/
theorem c7_four_documents (rm : List (String × String)) (verbose : Bool)
    (errs : List LoaderError) (es : List Entry) (bl : List String) :
    (runProgram rm verbose errs es bl).length = 4 ∧
    runProgram rm verbose errs es bl =
      [dumps (errorsJson errs),
       dumps (aggregateJson (runPipeline rm verbose es bl)),
       dumps (flaggedJson (runPipeline rm verbose es bl)),
       dumps (automaticsJson (runPipeline rm verbose es bl).automatics)] ∧
    (∀ j, jsonOk j = true → wsFree (dumps j) = true) :=
  ⟨rfl, rfl, wsFree_dumps⟩

/-- C7 witness: a concrete empty run prints four whitespace-free lines. -/
theorem c7_witness :
    (runProgram [] false [] [] []).length = 4 ∧
    wsFree (dumps (errorsJson [])) = true :=
  ⟨(c7_four_documents [] false [] [] []).1,
   (c7_four_documents [] false [] [] []).2.2 (errorsJson []) (by decide)⟩

/-- A registry with one known account, for the C6 counterexample. -/
def accC6 : List (String × AccountRecord) :=
  [("Assets:Cash", { openDate := "2024-01-01", currencies := [], closeDate := "", balance := [] })]

/-- C6 counterexample: on the line `"Assets:Cash 1.0\tUSD"` the code takes
the whole tab-containing remainder `"1.0\tUSD"` as the balance token
(it splits only at a space character), while the claim's "first
whitespace-delimited token" is `"1.0"`. -/
theorem c6_counterexample :
    ((alistLookup (processBalanceLine accC6 "Assets:Cash 1.0\tUSD") "Assets:Cash").map
        AccountRecord.balance = some ["1.0\tUSD"]) ∧
    specTokenC6 "1.0\tUSD" = "1.0" ∧
    (["1.0\tUSD"] : List String) ≠ ["1.0"] := by
  refine ⟨by decide, by decide, by decide⟩

/-- C6 (amended): each balance-report line is handled exactly as the amended
parsing rule states: a non-empty line is split on its first space; when the
remainder is non-empty, the balance token is the stripped remainder up to its
first space character; a non-empty token is appended to the balance list of
the named account when that account is a registry key; in every other case
(empty line, no space, empty remainder or token, unknown account) the
registry is returned unchanged. -/
theorem c6_balance_line_parsing (acc : List (String × AccountRecord)) (line : String) :
    processBalanceLine acc line = amendedStepC6 acc line := by
  by_cases hline : line = ""
  · subst hline
    simp [processBalanceLine, amendedStepC6]
  · cases hp : partSp line.data with
    | none =>
      have hps : pyPartitionSpace line = (line, "", "") := by
        unfold pyPartitionSpace
        rw [hp]
      simp [processBalanceLine, amendedStepC6, hps, hp, hline]
    | some p =>
      have hps : pyPartitionSpace line = (⟨p.1⟩, " ", ⟨p.2⟩) := by
        unfold pyPartitionSpace
        rw [hp]
      have htok := pyPartitionSpace_fst (pyStrip (⟨p.2⟩ : String))
      simp only [processBalanceLine, amendedStepC6, hps, hp]
      rw [if_pos (show line ≠ "" from hline), if_neg hline]
      by_cases h2 : (⟨p.2⟩ : String) = ""
      · rw [if_neg (show ¬((" " : String) ≠ "" ∧ (⟨p.2⟩ : String) ≠ "") from
          fun hh => hh.2 h2), if_pos h2]
      · rw [if_pos (show ((" " : String) ≠ "" ∧ (⟨p.2⟩ : String) ≠ "") from
          ⟨by decide, h2⟩), if_neg h2]
        rw [htok]
        by_cases h3 : (⟨(pyStrip (⟨p.2⟩ : String)).data.takeWhile (fun c => !(c = ' '))⟩ : String) = ""
        · rw [if_neg (show ¬(⟨(pyStrip (⟨p.2⟩ : String)).data.takeWhile (fun c => !(c = ' '))⟩ : String) ≠ "" from
            fun hh => hh h3), if_pos h3]
        · rw [if_pos (show (⟨(pyStrip (⟨p.2⟩ : String)).data.takeWhile (fun c => !(c = ' '))⟩ : String) ≠ "" from h3),
            if_neg h3]

/-- An open / close / re-open sequence for the same account. -/
def esC1 : List Entry :=
  [Entry.openE "Assets:Cash" "2024-01-01" none,
   Entry.closeE "Assets:Cash" "2024-01-02",
   Entry.openE "Assets:Cash" "2024-01-03" none]

/-- C1 counterexample: after open / close / re-open, a Close entry for
`Assets:Cash` was observed, yet the account's `close` field in the output is
the empty string (re-opening resets it), so "close is empty iff no Close for
that name was observed" fails. -/
theorem c1_counterexample :
    (∃ e ∈ esC1, isCloseFor "Assets:Cash" e = true) ∧
    ((alistLookup (runPipeline beancountReverseFlagMap false esC1 []).accounts
        "Assets:Cash").map AccountRecord.closeDate = some "") := by
  refine ⟨⟨Entry.closeE "Assets:Cash" "2024-01-02", by decide, by decide⟩, by decide⟩

/-- C1 (amended): for well-formed entries (`Open`/`Close` carry a non-empty
account name and `Close` a non-empty date), an account name is a key of the
output accounts mapping iff an Open entry for it was observed (in particular
a Close for a never-opened account is discarded and creates no entry), and
its `close` field is the empty string iff no Close entry for that exact name
was observed after the account's most recent Open entry. -/
theorem c1_accounts_registry (rm : List (String × String)) (verbose : Bool)
    (es : List Entry) (bl : List String) (hwf : ∀ e ∈ es, wfEntry e) :
    (∀ a, (alistLookup (runPipeline rm verbose es bl).accounts a).isSome = true ↔
        ∃ e ∈ es, isOpenFor a e = true) ∧
    (∀ a d cur l₁ l₂, es = l₁ ++ Entry.openE a d cur :: l₂ →
        (∀ e ∈ l₂, isOpenFor a e = false) →
        ∃ r, alistLookup (runPipeline rm verbose es bl).accounts a = some r ∧
          (r.closeDate = "" ↔ ∀ e ∈ l₂, isCloseFor a e = false)) := by
  rw [runPipeline_accounts]
  constructor
  · intro a
    rw [processBalanceLines_isSome, foldl_accountsStep_isSome es [] a hwf]
    simp [alistLookup]
  · intro a d cur l₁ l₂ hsplit hnoopen
    have hwf₂ : ∀ e ∈ l₂, wfEntry e := fun e he =>
      hwf e (by rw [hsplit]; exact List.mem_append_right _ (List.mem_cons_of_mem _ he))
    have hopen_mem : Entry.openE a d cur ∈ es := by
      rw [hsplit]
      exact List.mem_append_right _ (List.mem_cons_self _ _)
    have ha : a ≠ "" := hwf _ hopen_mem
    have hfold : es.foldl accountsStep [] =
        l₂.foldl accountsStep (accountsStep (l₁.foldl accountsStep []) (Entry.openE a d cur)) := by
      rw [hsplit, List.foldl_append, List.foldl_cons]
    have hopenstep : alistLookup (accountsStep (l₁.foldl accountsStep []) (Entry.openE a d cur)) a =
        some { openDate := d, currencies := cur.getD [], closeDate := "", balance := [] } := by
      simp only [accountsStep]
      rw [if_pos ha, alistLookup_set_self]
    obtain ⟨r', h1, h2⟩ := foldl_accountsStep_closeDate l₂ _ a
      { openDate := d, currencies := cur.getD [], closeDate := "", balance := [] }
      hwf₂ hnoopen hopenstep
    have h1' : alistLookup (es.foldl accountsStep []) a = some r' := by
      rw [hfold]
      exact h1
    have hbal := processBalanceLines_closeDate bl (es.foldl accountsStep []) a
    rw [h1'] at hbal
    cases hres : alistLookup (processBalanceLines (es.foldl accountsStep []) bl) a with
    | none =>
      rw [hres] at hbal
      simp at hbal
    | some r'' =>
      rw [hres] at hbal
      have hcd : r''.closeDate = r'.closeDate := by simpa using hbal
      refine ⟨r'', rfl, ?_⟩
      rw [hcd, h2]
      simp

/-- A simple open-then-close ledger for the C1 witness. -/
def esC1w : List Entry :=
  [Entry.openE "Assets:Cash" "2024-01-01" none,
   Entry.closeE "Assets:Cash" "2024-01-02"]

/-- C1 witness: on the open-then-close ledger, `Assets:Cash` is a key of the
output mapping and a never-opened name is not. -/
theorem c1_witness :
    ((alistLookup (runPipeline [] false esC1w []).accounts "Assets:Cash").isSome = true) ∧
    ¬((alistLookup (runPipeline [] false esC1w []).accounts "Expenses:Food").isSome = true) := by
  have hwf : ∀ e ∈ esC1w, wfEntry e := by
    intro e he
    simp only [esC1w, List.mem_cons, List.not_mem_nil, or_false] at he
    rcases he with rfl | rfl
    · exact (by decide : ("Assets:Cash" : String) ≠ "")
    · exact ⟨by decide, by decide⟩
  have h := (c1_accounts_registry [] false esC1w [] hwf).1
  constructor
  · exact (h "Assets:Cash").2
      ⟨Entry.openE "Assets:Cash" "2024-01-01" none, by decide, by decide⟩
  · intro hc
    obtain ⟨e, he, hopen⟩ := (h "Expenses:Food").1 hc
    simp only [esC1w, List.mem_cons, List.not_mem_nil, or_false] at he
    rcases he with rfl | rfl <;> simp [isOpenFor] at hopen
